import Mathlib

/-!
Verification development for the quantitative core of the trading-research
application: indicator library, signal generators, consensus aggregator,
backtest simulator and multi-factor ranker.

Modelling conventions.
* Machine floats are modelled by exact arithmetic in a linear ordered field
  (`ℚ` where claims are decided concretely, `ℝ` where indicators involve a
  square root).  Claims stated "within floating tolerance" become exact.
* A pandas value that is NaN (rolling window not yet full, or 0/0) is
  modelled as `Option.none`; every float comparison with a NaN operand is
  false, which is exactly the behaviour of the `olt/ole/ogt/oge` helpers.
* A positive float divided by `0.0` is `+inf` in pandas; the single place
  where this matters (RSI with zero average loss and positive average gain,
  where `100 - 100/(1 + inf) = 100` exactly) is made explicit in `rsiAt`.
* String metadata (dates, rationale texts, indicator snapshots) carries no
  algorithmic content for the claims below; dates are replaced by bar
  indices and rationales/snapshots are omitted from the embedded records.
-/

/- Batteries marks the `Rat` field operations `@[irreducible]`, which blocks
kernel evaluation of concrete rational computations; restore the default
reducibility so that `decide` can evaluate the embedded programs on
concrete inputs. -/
set_option allowUnsafeReducibility true in
attribute [semireducible] Rat.add Rat.mul Rat.inv Rat.sub Rat.neg Rat.div

set_option maxRecDepth 100000

namespace TradingCore

/-- Direction of a trading signal (`Signal.action` in `strategies/quant.py`). -/
inductive Action where
  | buy
  | sell
  | hold
deriving DecidableEq, Repr

/-- Trading signal: `Signal` dataclass of `strategies/quant.py` (action and
strength; the rationale string and indicator snapshot are metadata and are
omitted). -/
structure Signal (K : Type) where
  action : Action
  strength : K
deriving DecidableEq, Repr

/-- One trade-log entry of the backtest simulator (`trades.append({...})` in
`services/backtest.py`).  A `buy` records price and share count, a `sell`
records price and realized pnl; the date string is replaced by position in
the log. -/
inductive Trade where
  | buy (price shares : ℚ)
  | sell (price pnl : ℚ)
deriving DecidableEq, Repr

/-- Comparison `x < y` on possibly-NaN floats: false whenever an operand is
NaN (`none`). -/
def olt {K : Type} [LinearOrder K] (x y : Option K) : Bool :=
  match x, y with
  | some a, some b => decide (a < b)
  | _, _ => false

/-- Comparison `x <= y` on possibly-NaN floats: false whenever an operand is
NaN (`none`). -/
def ole {K : Type} [LinearOrder K] (x y : Option K) : Bool :=
  match x, y with
  | some a, some b => decide (a ≤ b)
  | _, _ => false

/-- Comparison `x > y` on possibly-NaN floats. -/
def ogt {K : Type} [LinearOrder K] (x y : Option K) : Bool :=
  olt y x

/-- Comparison `x >= y` on possibly-NaN floats. -/
def oge {K : Type} [LinearOrder K] (x y : Option K) : Bool :=
  ole y x

section Indicators

variable {K : Type} [LinearOrderedField K]

/-- The trailing window of width `w` ending at index `i` of a series, `none`
while the window has not filled (pandas `rolling(w)` NaN region). -/
def windowAt (w : ℕ) (p : List K) (i : ℕ) : Option (List K) :=
  if w ≤ i + 1 ∧ i < p.length then some ((p.drop (i + 1 - w)).take w) else none

/-- Simple moving average at index `i`: `prices.rolling(w).mean()` of
`calculate_sma` / the inline `rolling(20).mean()` calls. -/
def smaAt (w : ℕ) (p : List K) (i : ℕ) : Option K :=
  (windowAt w p i).map (fun win => win.sum / (w : K))

/-- Sample variance (pandas `rolling(w).std()` squared, `ddof = 1`) of the
trailing window at index `i`. -/
def varAt (w : ℕ) (p : List K) (i : ℕ) : Option K :=
  (windowAt w p i).map (fun win =>
    let m := win.sum / (w : K)
    (win.map (fun x => (x - m) ^ 2)).sum / ((w : K) - 1))

/-- The gain series `delta.where(delta > 0, 0)` with `delta = prices.diff()`,
indexed like the price series.  Pandas `where` replaces every entry failing
the condition by 0 and `NaN > 0` is false, so the leading NaN difference at
index 0 becomes an imputed 0 observation; entry `k ≥ 1` is the positive
part of `p k - p (k-1)`. -/
def gains (p : List K) : List K :=
  (List.range p.length).map (fun k =>
    if k = 0 then 0
    else if 0 < p.getD k 0 - p.getD (k - 1) 0 then
      p.getD k 0 - p.getD (k - 1) 0
    else 0)

/-- The loss series `(-delta.where(delta < 0, 0))`, indexed like the price
series, with the same imputed 0 at index 0 (`NaN < 0` is false). -/
def losses (p : List K) : List K :=
  (List.range p.length).map (fun k =>
    if k = 0 then 0
    else if p.getD k 0 - p.getD (k - 1) 0 < 0 then
      -(p.getD k 0 - p.getD (k - 1) 0)
    else 0)

/-- Average gain `gain.rolling(per).mean()` at price index `i`: defined
once the window holds `per` observations of the gain series, i.e. from
index `per - 1` on (the first defined window contains the imputed 0 at
index 0). -/
def avgGainAt (per : ℕ) (p : List K) (i : ℕ) : Option K :=
  if per ≤ i + 1 ∧ i < p.length then
    some ((((gains p).drop (i + 1 - per)).take per).sum / (per : K))
  else none

/-- Average loss `loss.rolling(per).mean()` at price index `i`, defined
from index `per - 1` like `avgGainAt`. -/
def avgLossAt (per : ℕ) (p : List K) (i : ℕ) : Option K :=
  if per ≤ i + 1 ∧ i < p.length then
    some ((((losses p).drop (i + 1 - per)).take per).sum / (per : K))
  else none

/-- RSI at index `i`: `100 - 100/(1 + rs)` with `rs = avg_gain/avg_loss`
(`calculate_rsi` in `strategies/quant.py` and the inline computation of
`_rsi_strategy` in `services/backtest.py`).  Float semantics of the zero
average-loss case made explicit: `g/0 = +inf` for `g > 0` gives exactly
`100 - 100/(1 + inf) = 100`, while `0/0` is NaN (`none`). -/
def rsiAt (per : ℕ) (p : List K) (i : ℕ) : Option K :=
  match avgGainAt per p i, avgLossAt per p i with
  | some g, some l =>
      if l = 0 then (if g = 0 then none else some 100)
      else some (100 - 100 / (1 + g / l))
  | _, _ => none

/-- Exponentially weighted mean with `adjust=False` (`ewm(span, adjust=False)`
of `calculate_ema` / `calculate_macd`): `y 0 = x 0`,
`y i = (1-α)·y (i-1) + α·x i`, given the previous value `prev`. -/
def ewmRecAux (a : K) (prev : K) : List K → List K
  | [] => []
  | x :: xs =>
      let y := (1 - a) * prev + a * x
      y :: ewmRecAux a y xs

/-- Exponentially weighted mean, `adjust=False`, `α = 2/(span+1)`. -/
def ewmRec (span : ℕ) : List K → List K
  | [] => []
  | x :: xs => x :: ewmRecAux (2 / ((span : K) + 1)) x xs

/-- Exponentially weighted mean with pandas default `adjust=True`
(`.ewm(span=..).mean()` in `_macd_strategy` of `services/backtest.py`):
`y t = Σ (1-α)^j·x (t-j) / Σ (1-α)^j`, computed by the standard pair of
recurrences for numerator and denominator. -/
def ewmAdjAux (a : K) (num den : K) : List K → List K
  | [] => []
  | x :: xs =>
      let num' := (1 - a) * num + x
      let den' := (1 - a) * den + 1
      num' / den' :: ewmAdjAux a num' den' xs

/-- Exponentially weighted mean, `adjust=True`, `α = 2/(span+1)`. -/
def ewmAdj (span : ℕ) (p : List K) : List K :=
  ewmAdjAux (2 / ((span : K) + 1)) 0 0 p

end Indicators

section Generators

variable {K : Type} [LinearOrderedField K]

/-- Core of `sma_crossover_signal` (`strategies/quant.py` lines 123-171) once
the four SMA values `current_short/current_long/prev_short/prev_long` are
available (non-NaN).  The two hold branches both yield strength `0.5`. -/
def smaCrossCore (cs cl ps pl : K) : Signal K :=
  if cl < cs ∧ ps ≤ pl then ⟨.buy, min 1 ((cs - cl) / cl * 10)⟩
  else if cs < cl ∧ pl ≤ ps then ⟨.sell, min 1 ((cl - cs) / cl * 10)⟩
  else if cl < cs then ⟨.hold, 1 / 2⟩
  else ⟨.hold, 1 / 2⟩

/-- `sma_crossover_signal(prices, 20, 50)`: crossover of the 20- and 50-bar
SMAs at the last two indices.  When any of the four indicator values is NaN
every crossover/trend test is false and the result is `hold` with strength
`0.5`, which the catch-all branch reproduces exactly. -/
def sma_crossover_signal (p : List K) : Signal K :=
  let n := p.length
  match smaAt 20 p (n - 1), smaAt 50 p (n - 1), smaAt 20 p (n - 2), smaAt 50 p (n - 2) with
  | some cs, some cl, some ps, some pl => smaCrossCore cs cl ps pl
  | _, _, _, _ => ⟨.hold, 1 / 2⟩

/-- `macd_signal` (`strategies/quant.py` lines 174-222): MACD/signal-line
crossover on the last two bars; `ewm(span, adjust=False)` values are total
(no NaN).  `prevHist` is `histogram.iloc[-2]`. -/
def macd_signal (p : List K) : Signal K :=
  let n := p.length
  let macd := (ewmRec 12 p).zipWith (fun a b => a - b) (ewmRec 26 p)
  let sig := ewmRec 9 macd
  let hist := macd.zipWith (fun a b => a - b) sig
  let cm := macd.getD (n - 1) 0
  let cs := sig.getD (n - 1) 0
  let pm := macd.getD (n - 2) 0
  let ps := sig.getD (n - 2) 0
  let ch := hist.getD (n - 1) 0
  let ph := hist.getD (n - 2) 0
  if cs < cm ∧ pm ≤ ps then ⟨.buy, min 1 (|ch| / p.getD (n - 1) 0 * 100)⟩
  else if cm < cs ∧ ps ≤ pm then ⟨.sell, min 1 (|ch| / p.getD (n - 1) 0 * 100)⟩
  else if 0 < ch ∧ ph < ch then ⟨.hold, 6 / 10⟩
  else ⟨.hold, 4 / 10⟩

/-- Core of `rsi_signal` (`strategies/quant.py` lines 225-279) when both the
current and previous RSI are available; `os`/`ob` are the oversold/overbought
levels (30/70). -/
def rsiCore (os ob cur prev : K) : Signal K :=
  if os < cur ∧ prev ≤ os then ⟨.buy, min 1 ((os - prev) / os + 1 / 2)⟩
  else if cur < ob ∧ ob ≤ prev then ⟨.sell, min 1 ((prev - ob) / (100 - ob) + 1 / 2)⟩
  else if cur < os then ⟨.hold, 3 / 10⟩
  else if ob < cur then ⟨.hold, 3 / 10⟩
  else ⟨.hold, 1 / 2⟩

/-- `rsi_signal(prices, 30, 70)`.  With a NaN previous RSI the two crossover
branches are false and only the current-level tests remain; with a NaN
current RSI every test is false and the result is `hold` `0.5`. -/
def rsi_signal (p : List K) : Signal K :=
  let n := p.length
  match rsiAt 14 p (n - 1), rsiAt 14 p (n - 2) with
  | some cur, some prev => rsiCore 30 70 cur prev
  | some cur, none =>
      if cur < 30 then ⟨.hold, 3 / 10⟩
      else if 70 < cur then ⟨.hold, 3 / 10⟩
      else ⟨.hold, 1 / 2⟩
  | none, _ => ⟨.hold, 1 / 2⟩

/-- Branch logic of `momentum_signal` on the computed long- and short-window
momenta. -/
def momentumCore (mom momS : K) : Signal K :=
  if 1 / 10 < mom ∧ 0 < momS then ⟨.buy, min 1 mom⟩
  else if mom < -(1 / 10) ∧ momS < 0 then ⟨.sell, min 1 |mom|⟩
  else if 0 < mom ∧ momS < 0 then ⟨.hold, 4 / 10⟩
  else if mom < 0 ∧ 0 < momS then ⟨.hold, 6 / 10⟩
  else ⟨.hold, 1 / 2⟩

/-- `momentum_signal(prices, 252)` (`strategies/quant.py` lines 337-389).
`lookback` shrinks to `len - 1` on short history; `p.iloc[-k]` is index
`len - k`.  All quantities are total (no NaN). -/
def momentum_signal (p : List K) : Signal K :=
  let n := p.length
  let lookback := if n < 252 + 1 then n - 1 else 252
  let base := p.getD (n - lookback) 0
  let last := p.getD (n - 1) 0
  let mom := (last - base) / base
  let momS := if 20 < n then (last - p.getD (n - 20) 0) / p.getD (n - 20) 0 else mom
  momentumCore mom momS

end Generators

/-- Bollinger bands at index `i` over `ℝ` (`calculate_bollinger_bands`,
period 20, `k = 2`): `(upper, middle, lower)` with
`upper/lower = sma ± 2·std`, `std` the sample standard deviation. -/
noncomputable def bandsAt (p : List ℝ) (i : ℕ) : Option (ℝ × ℝ × ℝ) :=
  match smaAt 20 p i, varAt 20 p i with
  | some m, some v => some (m + 2 * Real.sqrt v, m, m - 2 * Real.sqrt v)
  | _, _ => none

/-- `bollinger_bands_signal` (`strategies/quant.py` lines 282-334) over `ℝ`.
With NaN bands all tests (including the `band_position > 0.5` one) are false
and the result is `hold` `0.5`; the two in-band branches both yield `hold`
`0.5` as well. -/
noncomputable def bollinger_bands_signal (p : List ℝ) : Signal ℝ :=
  let n := p.length
  let price := p.getD (n - 1) 0
  match bandsAt p (n - 1) with
  | some (u, _, l) =>
      if price ≤ l then ⟨.buy, min 1 ((l - price) / l * 10 + 7 / 10)⟩
      else if u ≤ price then ⟨.sell, min 1 ((price - u) / u * 10 + 7 / 10)⟩
      else ⟨.hold, 1 / 2⟩
  | none => ⟨.hold, 1 / 2⟩

/-- The five per-strategy signal generators applied by `_technical_analysis`. -/
inductive GenId where
  | smaCross
  | macd
  | rsiRev
  | bollinger
  | momentum
deriving DecidableEq, Repr

/-- Dispatch a generator id to its generator, over `ℝ`. -/
noncomputable def signalOf : GenId → List ℝ → Signal ℝ
  | .smaCross => sma_crossover_signal
  | .macd => macd_signal
  | .rsiRev => rsi_signal
  | .bollinger => bollinger_bands_signal
  | .momentum => momentum_signal

section Aggregate

variable {K : Type} [LinearOrderedField K]

/-- Aggregate buy strength (`aggregate_signals`, `strategies/quant.py` line
397): sum of the strengths of the buy signals divided by the TOTAL signal
count (0 when there is no buy signal, which coincides with the sum formula). -/
def buyStrength (sigs : List (Signal K)) : K :=
  let buys := sigs.filter (fun s => s.action = .buy)
  if buys.isEmpty then 0 else (buys.map (·.strength)).sum / (sigs.length : K)

/-- Aggregate sell strength (`aggregate_signals` line 398). -/
def sellStrength (sigs : List (Signal K)) : K :=
  let sells := sigs.filter (fun s => s.action = .sell)
  if sells.isEmpty then 0 else (sells.map (·.strength)).sum / (sigs.length : K)

/-- Consensus aggregator `aggregate_signals` (`strategies/quant.py` lines
392-427): buy if its aggregate strength beats sell and the `0.3` threshold,
symmetrically sell, else hold `0.5`. -/
def aggregate_signals (sigs : List (Signal K)) : Signal K :=
  let bs := buyStrength sigs
  let ss := sellStrength sigs
  if ss < bs ∧ 3 / 10 < bs then ⟨.buy, bs⟩
  else if bs < ss ∧ 3 / 10 < ss then ⟨.sell, ss⟩
  else ⟨.hold, 1 / 2⟩

/-- The aggregate strength formula as the specification words it: the MEAN
strength of the signals with the given action, divided by the total signal
count.  Stated for comparison with `buyStrength`/`sellStrength`; it is not
what the code computes. -/
def specActionStrength (a : Action) (sigs : List (Signal K)) : K :=
  let sub := sigs.filter (fun s => s.action = a)
  if sub.isEmpty then 0
  else ((sub.map (·.strength)).sum / (sub.length : K)) / (sigs.length : K)

end Aggregate

/-- State of the bar-by-bar simulator shared by the five signal-driven
strategies of `services/backtest.py` (`position`, `cash`, `shares`,
`trades`, `equity_curve`). -/
structure SimState where
  position : Bool
  cash : ℚ
  shares : ℚ
  trades : List Trade
  equity : List ℚ
deriving DecidableEq, Repr

/-- Initial simulator state: flat, all cash, empty logs. -/
def initSim (cap : ℚ) : SimState :=
  { position := false, cash := cap, shares := 0, trades := [], equity := [] }

/-- One loop iteration of a signal-driven backtest strategy
(`services/backtest.py`, e.g. lines 200-221): record equity, skip the
warm-up, then buy all-in on a buy signal when flat, else sell everything on
a sell signal when long, recording `pnl = cash - initial_capital` (the
`len(trades) > 0` guard is the code's literal `if` expression). -/
def stepSim (buySig sellSig : ℕ → Bool) (warm : ℕ) (p : List ℚ) (cap : ℚ)
    (st : SimState) (i : ℕ) : SimState :=
  let price := p.getD i 0
  let eq := st.equity ++ [st.cash + st.shares * price]
  if i < warm then { st with equity := eq }
  else if buySig i && !st.position then
    let sh := st.cash / price
    { position := true, cash := 0, shares := sh,
      trades := st.trades ++ [.buy price sh], equity := eq }
  else if sellSig i && st.position then
    let c := st.shares * price
    let pnl := if st.trades.isEmpty then 0 else c - cap
    { position := false, cash := c, shares := 0,
      trades := st.trades ++ [.sell price pnl], equity := eq }
  else { st with equity := eq }

/-- Simulator state after processing the first `i` bars. -/
def simAfter (buySig sellSig : ℕ → Bool) (warm : ℕ) (p : List ℚ) (cap : ℚ)
    (i : ℕ) : SimState :=
  (List.range i).foldl (stepSim buySig sellSig warm p cap) (initSim cap)

/-- Full simulator run over all bars. -/
def runSim (buySig sellSig : ℕ → Bool) (warm : ℕ) (p : List ℚ) (cap : ℚ) :
    SimState :=
  simAfter buySig sellSig warm p cap p.length

/-- Buy signal of `_sma_crossover`: 20-bar SMA crosses above the 50-bar SMA
(false on NaN operands, as in pandas). -/
def smaBuySig (p : List ℚ) (i : ℕ) : Bool :=
  ogt (smaAt 20 p i) (smaAt 50 p i) && ole (smaAt 20 p (i - 1)) (smaAt 50 p (i - 1))

/-- Sell signal of `_sma_crossover`: 20-bar SMA crosses below the 50-bar SMA. -/
def smaSellSig (p : List ℚ) (i : ℕ) : Bool :=
  olt (smaAt 20 p i) (smaAt 50 p i) && oge (smaAt 20 p (i - 1)) (smaAt 50 p (i - 1))

/-- MACD line of `_macd_strategy` (`ewm(span=12).mean() - ewm(span=26).mean()`,
pandas default `adjust=True`). -/
def macdLine (p : List ℚ) : List ℚ :=
  (ewmAdj 12 p).zipWith (fun a b => a - b) (ewmAdj 26 p)

/-- Signal line of `_macd_strategy` (`macd.ewm(span=9).mean()`). -/
def macdSignalLine (p : List ℚ) : List ℚ :=
  ewmAdj 9 (macdLine p)

/-- Buy signal of `_macd_strategy`: MACD crosses above its signal line. -/
def macdBuySig (p : List ℚ) (i : ℕ) : Bool :=
  decide ((macdSignalLine p).getD i 0 < (macdLine p).getD i 0) &&
  decide ((macdLine p).getD (i - 1) 0 ≤ (macdSignalLine p).getD (i - 1) 0)

/-- Sell signal of `_macd_strategy`: MACD crosses below its signal line. -/
def macdSellSig (p : List ℚ) (i : ℕ) : Bool :=
  decide ((macdLine p).getD i 0 < (macdSignalLine p).getD i 0) &&
  decide ((macdSignalLine p).getD (i - 1) 0 ≤ (macdLine p).getD (i - 1) 0)

/-- Buy signal of `_rsi_strategy`: RSI crosses above 30. -/
def rsiBuySig (p : List ℚ) (i : ℕ) : Bool :=
  ogt (rsiAt 14 p i) (some 30) && ole (rsiAt 14 p (i - 1)) (some 30)

/-- Sell signal of `_rsi_strategy`: RSI above 70. -/
def rsiSellSig (p : List ℚ) (i : ℕ) : Bool :=
  ogt (rsiAt 14 p i) (some 70)

/-- Momentum (`pct_change(lookback)`) of `_momentum_strategy` at index `i`,
`lookback = min(252, len - 1)`; NaN before the lookback fills. -/
def momAt (p : List ℚ) (i : ℕ) : Option ℚ :=
  let lookback := min 252 (p.length - 1)
  if lookback ≤ i ∧ i < p.length then
    some ((p.getD i 0 - p.getD (i - lookback) 0) / p.getD (i - lookback) 0)
  else none

/-- Buy signal of `_momentum_strategy`: positive momentum. -/
def momBuySig (p : List ℚ) (i : ℕ) : Bool :=
  ogt (momAt p i) (some 0)

/-- Sell signal of `_momentum_strategy`: negative momentum. -/
def momSellSig (p : List ℚ) (i : ℕ) : Bool :=
  olt (momAt p i) (some 0)

/-- Buy signal of `_mean_reversion`: `close <= lower_band` with
`lower_band = sma - 2·std`.  Over `ℚ` the square root is eliminated by the
exact equivalence `c ≤ m - 2·√v  ↔  0 ≤ m - c ∧ 4·v ≤ (m - c)^2`
(valid since the sample variance `v` is nonnegative). -/
def bollBuySig (p : List ℚ) (i : ℕ) : Bool :=
  match smaAt 20 p i, varAt 20 p i with
  | some m, some v =>
      decide (0 ≤ m - p.getD i 0) && decide (4 * v ≤ (m - p.getD i 0) ^ 2)
  | _, _ => false

/-- Sell signal of `_mean_reversion`: `close >= sma` (the middle band). -/
def bollSellSig (p : List ℚ) (i : ℕ) : Bool :=
  oge (some (p.getD i 0)) (smaAt 20 p i)

/-- The five signal-driven backtest strategies of `services/backtest.py`. -/
inductive SigStrategy where
  | smaCross
  | macd
  | rsiRev
  | momentum
  | meanRev
deriving DecidableEq, Repr

/-- Warm-up length of each signal-driven strategy (the `if i < …: continue`
guards; the momentum warm-up is `lookback + 1`). -/
def warmOf : SigStrategy → List ℚ → ℕ
  | .smaCross, _ => 50
  | .macd, _ => 35
  | .rsiRev, _ => 20
  | .momentum, p => min 252 (p.length - 1) + 1
  | .meanRev, _ => 25

/-- Buy signal of each signal-driven strategy. -/
def buySigOf : SigStrategy → List ℚ → ℕ → Bool
  | .smaCross => smaBuySig
  | .macd => macdBuySig
  | .rsiRev => rsiBuySig
  | .momentum => momBuySig
  | .meanRev => bollBuySig

/-- Sell signal of each signal-driven strategy. -/
def sellSigOf : SigStrategy → List ℚ → ℕ → Bool
  | .smaCross => smaSellSig
  | .macd => macdSellSig
  | .rsiRev => rsiSellSig
  | .momentum => momSellSig
  | .meanRev => bollSellSig

/-- Simulator state of a signal-driven strategy after the first `i` bars. -/
def stratAfter (s : SigStrategy) (p : List ℚ) (cap : ℚ) (i : ℕ) : SimState :=
  simAfter (buySigOf s p) (sellSigOf s p) (warmOf s p) p cap i

/-- Full simulator run of a signal-driven strategy. -/
def runStrategy (s : SigStrategy) (p : List ℚ) (cap : ℚ) : SimState :=
  stratAfter s p cap p.length

/-- Is a trade-log entry a buy? -/
def isBuyT : Trade → Bool
  | .buy _ _ => true
  | .sell _ _ => false

/-- Number of buy entries in a trade log. -/
def countBuys (l : List Trade) : ℕ :=
  l.countP isBuyT

/-- Number of sell entries in a trade log. -/
def countSells (l : List Trade) : ℕ :=
  l.countP (fun t => !isBuyT t)

/-- Downsampled equity curve of `_calculate_metrics` (`services/backtest.py`
lines 139-142): the bars at indices `range(0, n, step)` with
`step = max(1, n // 100)`; each point keeps its bar index (standing for the
date) and equity value.  `(n + step - 1) / step` is the length of the Python
range. -/
def equityData (ec : List ℚ) : List (ℕ × ℚ) :=
  let n := ec.length
  let step := max 1 (n / 100)
  (List.range ((n + step - 1) / step)).map (fun k => (k * step, ec.getD (k * step) 0))

/-- Embedded `BacktestResult` (`services/backtest.py` lines 8-62).  The
fields whose values are irrational over the rationals (annualized return,
Sharpe, Sortino, volatility, all involving real powers or square roots) and
the pure metadata (ticker, date strings) are omitted; `equityData` keeps bar
indices in place of date strings. -/
structure BacktestResult where
  strategy : String
  initialCapital : ℚ
  finalValue : ℚ
  totalReturn : ℚ
  winRate : ℚ
  totalTrades : ℕ
  equityCurve : List (ℕ × ℚ)
deriving DecidableEq, Repr

/-- The metric computation `_calculate_metrics` (restricted to the embedded
fields): total return, win rate over all logged trades (buys count `pnl = 0`),
trade count and the downsampled equity curve. -/
def calcMetrics (strategy : String) (cap : ℚ) (equity : List ℚ)
    (trades : List Trade) : BacktestResult :=
  let fin := equity.getD (equity.length - 1) 0
  let winners := trades.countP (fun t => match t with
    | .sell _ pnl => decide (0 < pnl)
    | .buy _ _ => false)
  { strategy := strategy
    initialCapital := cap
    finalValue := fin
    totalReturn := (fin - cap) / cap
    winRate := if trades.isEmpty then 0 else (winners : ℚ) / (trades.length : ℚ)
    totalTrades := trades.length
    equityCurve := equityData equity }

/-- Trade log of `_buy_and_hold` (`services/backtest.py` line 176): a single
buy of `initial_capital / close[0]` shares on the first bar. -/
def buyAndHoldTrades (p : List ℚ) (cap : ℚ) : List Trade :=
  [.buy (p.getD 0 0) (cap / p.getD 0 0)]

/-- `_buy_and_hold` (`services/backtest.py` lines 163-181): buy on the first
bar, equity curve `shares · close`. -/
def buyAndHold (p : List ℚ) (cap : ℚ) : BacktestResult :=
  let sh := cap / p.getD 0 0
  calcMetrics "buy_and_hold" cap (p.map (fun c => sh * c)) (buyAndHoldTrades p cap)

/-- Result of one signal-driven strategy, through `_calculate_metrics`. -/
def runSigStrategy (s : SigStrategy) (name : String) (p : List ℚ) (cap : ℚ) :
    BacktestResult :=
  let st := runStrategy s p cap
  calcMetrics name cap st.equity st.trades

/-- `run_backtest` (`services/backtest.py` lines 78-98): dispatch on the
strategy name, with buy-and-hold as the fallback for unknown names. -/
def run_backtest (p : List ℚ) (strategy : String) (cap : ℚ) : BacktestResult :=
  if strategy = "buy_and_hold" then buyAndHold p cap
  else if strategy = "sma_crossover" then runSigStrategy .smaCross "sma_crossover" p cap
  else if strategy = "macd" then runSigStrategy .macd "macd" p cap
  else if strategy = "rsi_reversal" then runSigStrategy .rsiRev "rsi_reversal" p cap
  else if strategy = "momentum" then runSigStrategy .momentum "momentum" p cap
  else if strategy = "mean_reversion" then runSigStrategy .meanRev "mean_reversion" p cap
  else buyAndHold p cap

/-- Per-asset input of the portfolio optimizer: the category scores (with
the `dict.get(..., 50)` defaults already applied by the caller), the
technical metrics feeding the risk assessment, and the fields used for the
expected-yield heuristic.  The position in the universe list stands for the
ticker. -/
structure AssetInput where
  fScore : ℚ
  tScore : ℚ
  sScore : ℚ
  volatility : ℚ
  sharpe : ℚ
  histReturn : ℚ
  signal : Action
  strength : ℚ
  price : ℚ
deriving DecidableEq, Repr

/-- Risk tolerance thresholds of `_risk_assessment` (`agents/router.py`
lines 290-296), keyed by preference with `moderate` as fallback. -/
def riskThresholds (pref : String) : ℚ × ℚ :=
  if pref = "conservative" then (2 / 10, 5 / 10)
  else if pref = "moderate" then (4 / 10, 3 / 10)
  else if pref = "aggressive" then (8 / 10, 0)
  else (4 / 10, 3 / 10)

/-- `within_tolerance` of `_risk_assessment` (`agents/router.py` lines
314-317): volatility at most the max, Sharpe at least the min. -/
def withinTolerance (pref : String) (a : AssetInput) : Bool :=
  decide (a.volatility ≤ (riskThresholds pref).1) &&
  decide ((riskThresholds pref).2 ≤ a.sharpe)

/-- Category weights of `_optimize_portfolio` (`agents/router.py` lines
343-348): (fundamental, technical, sentiment, risk). -/
def weightsOf (pref : String) : ℚ × ℚ × ℚ × ℚ :=
  if pref = "conservative" then (4 / 10, 2 / 10, 1 / 10, 3 / 10)
  else if pref = "aggressive" then (2 / 10, 4 / 10, 2 / 10, 2 / 10)
  else (3 / 10, 3 / 10, 15 / 100, 25 / 100)

/-- Risk category score `r_score` of `_optimize_portfolio` (line 354):
100 within tolerance, else 30. -/
def riskScore (pref : String) (a : AssetInput) : ℚ :=
  if withinTolerance pref a then 100 else 30

/-- Combined weighted score of `_optimize_portfolio` (lines 356-361). -/
def combinedScore (pref : String) (a : AssetInput) : ℚ :=
  let w := weightsOf pref
  a.fScore * w.1 + a.tScore * w.2.1 + a.sScore * w.2.2.1 +
    riskScore pref a * w.2.2.2

/-- One universe entry tagged with its original position and combined score. -/
structure Scored where
  idx : ℕ
  asset : AssetInput
  combined : ℚ
deriving DecidableEq, Repr

/-- The universe with combined scores, in original order (`combined_scores`
dict of `_optimize_portfolio`; insertion order is universe order). -/
def scoredList (pref : String) (assets : List AssetInput) : List Scored :=
  assets.enum.map (fun ia => ⟨ia.1, ia.2, combinedScore pref ia.2⟩)

/-- Stable descending insertion by combined score: the new element goes in
front of the first element whose score it matches or exceeds. -/
def insDesc (a : Scored) : List Scored → List Scored
  | [] => [a]
  | b :: l => if b.combined ≤ a.combined then a :: b :: l else b :: insDesc a l

/-- Stable sort by combined score descending.  Python's
`sorted(items, key=score, reverse=True)` is a stable descending sort, and
any two stable sorts of the same list under the same key produce the same
output, so insertion sort models it exactly. -/
def sortDesc : List Scored → List Scored
  | [] => []
  | a :: l => insDesc a (sortDesc l)

/-- Expected 1-year yield heuristic of `_optimize_portfolio` (lines
396-405), clamped to `[-0.5, 1]`. -/
def expectedYield (a : AssetInput) : ℚ :=
  let e := match a.signal with
    | .buy => a.histReturn * (1 + a.strength * (5 / 10))
    | .sell => a.histReturn * (5 / 10)
    | .hold => a.histReturn * (8 / 10)
  max (-(5 / 10)) (min 1 e)

/-- One ranked pick (`ranked_picks.append({...})` of `_optimize_portfolio`,
lines 409-420); `idx` is the original universe position standing for the
ticker. -/
structure Pick where
  rank : ℕ
  idx : ℕ
  price : ℚ
  expected1y : ℚ
  confidence : ℚ
  allocationPct : ℚ
  allocationAmt : ℚ
  combined : ℚ
  fScore : ℚ
  tScore : ℚ
  sScore : ℚ
  rScore : ℚ
deriving DecidableEq, Repr

/-- The kept picks: the scored universe sorted by combined score
descending (stable) and truncated to the top 10 (`ranked` in
`_optimize_portfolio`). -/
def rankedOf (pref : String) (assets : List AssetInput) : List Scored :=
  (sortDesc (scoredList pref assets)).take 10

/-- Total combined score over the kept picks (`total_score`). -/
def totalOf (pref : String) (assets : List AssetInput) : ℚ :=
  ((rankedOf pref assets).map (·.combined)).sum

/-- `_optimize_portfolio` (`agents/router.py` lines 329-425): score, sort
descending (stable), keep the top 10, allocate the budget proportionally to
combined score (equal 10% fallback when the total is not positive). -/
def optimizePortfolio (pref : String) (budget : ℚ) (assets : List AssetInput) :
    List Pick :=
  let ranked := rankedOf pref assets
  let total := totalOf pref assets
  ranked.enum.map (fun ks =>
    let pct := if 0 < total then ks.2.combined / total * 100 else 10
    { rank := ks.1 + 1
      idx := ks.2.idx
      price := ks.2.asset.price
      expected1y := expectedYield ks.2.asset
      confidence := ks.2.combined / 100
      allocationPct := pct
      allocationAmt := budget * (pct / 100)
      combined := ks.2.combined
      fScore := ks.2.asset.fScore
      tScore := ks.2.asset.tScore
      sScore := ks.2.asset.sScore
      rScore := riskScore pref ks.2.asset })

/-- Check that a trade log strictly alternates buys and sells, the first
expected kind given by `b` (`true` = expect a buy). -/
def altB : Bool → List Trade → Bool
  | _, [] => true
  | b, t :: ts => (isBuyT t == b) && altB (!b) ts

/-- Shape invariant of a simulator trade log with initial capital `cap`:
alternating buys and sells starting with a buy; the `Bool` tells whether a
position is currently open and the `ℚ` is the share count of the open buy
(0 when flat); every sell records `pnl = shares · price - cap`. -/
inductive TradeLog (cap : ℚ) : Bool → ℚ → List Trade → Prop where
  | nil : TradeLog cap false 0 []
  | openT (l : List Trade) (pr sh : ℚ) :
      TradeLog cap false 0 l → TradeLog cap true sh (l ++ [.buy pr sh])
  | closeT (l : List Trade) (pr sh : ℚ) :
      TradeLog cap true sh l → TradeLog cap false 0 (l ++ [.sell pr (sh * pr - cap)])

theorem countBuys_concat (l : List Trade) (t : Trade) :
    countBuys (l ++ [t]) = countBuys l + if isBuyT t then 1 else 0 := by
  simp [countBuys, List.countP_append, List.countP_cons]

theorem countSells_concat (l : List Trade) (t : Trade) :
    countSells (l ++ [t]) = countSells l + if isBuyT t then 0 else 1 := by
  simp only [countSells, List.countP_append, List.countP_cons, List.countP_nil]
  cases h : isBuyT t <;> simp [h]

theorem altB_concat (l : List Trade) (b : Bool) (t : Trade) :
    altB b (l ++ [t]) =
      (altB b l && (isBuyT t == (b == decide (l.length % 2 = 0)))) := by
  induction l generalizing b with
  | nil => cases b <;> simp [altB]
  | cons x l ih =>
      have hpar : (b == decide ((x :: l).length % 2 = 0)) =
          ((!b) == decide (l.length % 2 = 0)) := by
        rcases Nat.mod_two_eq_zero_or_one l.length with h0 | h0
        · have h1 : (x :: l).length % 2 = 1 := by
            simp only [List.length_cons]
            omega
          rw [h0, h1]
          cases b <;> rfl
        · have h1 : (x :: l).length % 2 = 0 := by
            simp only [List.length_cons]
            omega
          rw [h0, h1]
          cases b <;> rfl
      calc altB b ((x :: l) ++ [t])
          = ((isBuyT x == b) && altB (!b) (l ++ [t])) := rfl
        _ = ((isBuyT x == b) &&
              (altB (!b) l && (isBuyT t == ((!b) == decide (l.length % 2 = 0))))) := by
            rw [ih (!b)]
        _ = (((isBuyT x == b) && altB (!b) l) &&
              (isBuyT t == ((!b) == decide (l.length % 2 = 0)))) := by
            rw [Bool.and_assoc]
        _ = (altB b (x :: l) && (isBuyT t == (b == decide ((x :: l).length % 2 = 0)))) := by
            rw [hpar]
            rfl

/-- All structural facts about a well-shaped trade log at once: alternation,
parity/counts/flat shares when flat, parity/counts/trailing open buy when
long, and the recorded pnl of every sell entry. -/
theorem tradeLog_facts {cap : ℚ} {pos : Bool} {sh : ℚ} {l : List Trade}
    (h : TradeLog cap pos sh l) :
    altB true l = true ∧
    (pos = false → l.length % 2 = 0 ∧ countSells l = countBuys l ∧ sh = 0) ∧
    (pos = true → l.length % 2 = 1 ∧ countSells l + 1 = countBuys l ∧
      ∃ pr, l[l.length - 1]? = some (.buy pr sh)) ∧
    (∀ k q pnl, l[k]? = some (.sell q pnl) →
      ∃ pr s, 1 ≤ k ∧ l[k - 1]? = some (.buy pr s) ∧ pnl = s * q - cap) := by
  induction h with
  | nil => simp [altB, countSells, countBuys]
  | openT l pr sh hprev ih =>
      obtain ⟨ihalt, ihflat, -, ihsell⟩ := ih
      obtain ⟨ihpar, ihcnt, -⟩ := ihflat rfl
      have hlen : (l ++ [Trade.buy pr sh]).length = l.length + 1 := by simp
      refine ⟨?_, ?_, ?_, ?_⟩
      · rw [altB_concat, ihalt]
        have h0 : decide (l.length % 2 = 0) = true := by simp [ihpar]
        rw [h0]
        rfl
      · intro hcontra
        simp at hcontra
      · intro _
        refine ⟨by rw [hlen]; omega, ?_, ?_⟩
        · rw [countBuys_concat, countSells_concat]
          simp only [isBuyT, if_true]
          omega
        · refine ⟨pr, ?_⟩
          rw [hlen, Nat.add_sub_cancel]
          exact List.getElem?_concat_length l (Trade.buy pr sh)
      · intro k q pnl hk
        rcases lt_trichotomy k l.length with hlt | heq | hgt
        · rw [List.getElem?_append_left hlt] at hk
          obtain ⟨pr', s', hk1, hk2, hk3⟩ := ihsell k q pnl hk
          refine ⟨pr', s', hk1, ?_, hk3⟩
          rw [List.getElem?_append_left (by omega)]
          exact hk2
        · subst heq
          rw [List.getElem?_concat_length] at hk
          exact absurd hk (by simp)
        · rw [List.getElem?_eq_none (by rw [hlen]; omega)] at hk
          exact absurd hk (by simp)
  | closeT l pr sh hprev ih =>
      obtain ⟨ihalt, -, ihlong, ihsell⟩ := ih
      obtain ⟨ihpar, ihcnt, ihlast⟩ := ihlong rfl
      have hlen : (l ++ [Trade.sell pr (sh * pr - cap)]).length = l.length + 1 := by simp
      have hlpos : 1 ≤ l.length := by omega
      refine ⟨?_, ?_, ?_, ?_⟩
      · rw [altB_concat, ihalt]
        have h0 : decide (l.length % 2 = 0) = false := by simp [ihpar]
        rw [h0]
        rfl
      · intro _
        refine ⟨by rw [hlen]; omega, ?_, rfl⟩
        rw [countBuys_concat, countSells_concat]
        simp only [isBuyT, Bool.false_eq_true, if_false]
        omega
      · intro hcontra
        simp at hcontra
      · intro k q pnl hk
        rcases lt_trichotomy k l.length with hlt | heq | hgt
        · rw [List.getElem?_append_left hlt] at hk
          obtain ⟨pr', s', hk1, hk2, hk3⟩ := ihsell k q pnl hk
          refine ⟨pr', s', hk1, ?_, hk3⟩
          rw [List.getElem?_append_left (by omega)]
          exact hk2
        · subst heq
          rw [List.getElem?_concat_length] at hk
          simp only [Option.some.injEq, Trade.sell.injEq] at hk
          obtain ⟨hq, hpnl⟩ := hk
          obtain ⟨pr'', hlast'⟩ := ihlast
          refine ⟨pr'', sh, hlpos, ?_, ?_⟩
          · rw [List.getElem?_append_left (by omega)]
            exact hlast'
          · rw [← hpnl, hq]
        · rw [List.getElem?_eq_none (by rw [hlen]; omega)] at hk
          exact absurd hk (by simp)

/-- Invariant carried through the simulator loop: the trade log is
well-shaped and an open position implies zero cash. -/
def SimInv (cap : ℚ) (st : SimState) : Prop :=
  TradeLog cap st.position st.shares st.trades ∧ (st.position = true → st.cash = 0)

theorem stepSim_inv {bs ss : ℕ → Bool} {warm : ℕ} {p : List ℚ} {cap : ℚ}
    {st : SimState} {i : ℕ} (h : SimInv cap st) :
    SimInv cap (stepSim bs ss warm p cap st i) := by
  obtain ⟨hlog, hcash⟩ := h
  simp only [stepSim]
  by_cases hw : i < warm
  · rw [if_pos hw]
    exact ⟨hlog, hcash⟩
  rw [if_neg hw]
  by_cases hb : (bs i && !st.position) = true
  · rw [if_pos hb]
    have hpos : st.position = false := by
      have h2 := ((Bool.and_eq_true _ _).mp hb).2
      simpa using h2
    have hsh : st.shares = 0 := ((tradeLog_facts hlog).2.1 hpos).2.2
    have hlog' : TradeLog cap false 0 st.trades := by
      rw [hpos, hsh] at hlog
      exact hlog
    exact ⟨TradeLog.openT _ _ _ hlog', fun _ => rfl⟩
  rw [if_neg hb]
  by_cases hs : (ss i && st.position) = true
  · rw [if_pos hs]
    have hpos : st.position = true := ((Bool.and_eq_true _ _).mp hs).2
    rw [hpos] at hlog
    have hne : st.trades ≠ [] := by
      intro hnil
      have hp := ((tradeLog_facts hlog).2.2.1 rfl).1
      rw [hnil] at hp
      simp at hp
    have hempty : st.trades.isEmpty = false := List.isEmpty_eq_false.mpr hne
    constructor
    · rw [hempty]
      simp only [Bool.false_eq_true, if_false]
      exact TradeLog.closeT _ _ _ hlog
    · intro hcontra
      simp at hcontra
  rw [if_neg hs]
  exact ⟨hlog, hcash⟩

theorem simAfter_inv (bs ss : ℕ → Bool) (warm : ℕ) (p : List ℚ) (cap : ℚ)
    (i : ℕ) : SimInv cap (simAfter bs ss warm p cap i) := by
  induction i with
  | zero =>
      have h0 : simAfter bs ss warm p cap 0 = initSim cap := rfl
      rw [h0]
      exact ⟨TradeLog.nil, fun hcontra => by simp [initSim] at hcontra⟩
  | succ i ih =>
      unfold simAfter at ih ⊢
      rw [List.range_succ, List.foldl_append, List.foldl_cons, List.foldl_nil]
      exact stepSim_inv ih

/-- C10: after each processed bar of every signal-driven backtest strategy,
a flat position has zero shares, a long position has zero cash, and the
trade log strictly alternates buys and sells beginning with a buy (hence
sells never outnumber buys). -/
theorem c10_simulator_invariants (s : SigStrategy) (p : List ℚ) (cap : ℚ)
    (i : ℕ) (hi : i ≤ p.length) :
    ((stratAfter s p cap i).position = false → (stratAfter s p cap i).shares = 0) ∧
    ((stratAfter s p cap i).position = true → (stratAfter s p cap i).cash = 0) ∧
    altB true (stratAfter s p cap i).trades = true ∧
    countSells (stratAfter s p cap i).trades ≤ countBuys (stratAfter s p cap i).trades := by
  unfold stratAfter
  obtain ⟨hlog, hcash⟩ := simAfter_inv (buySigOf s p) (sellSigOf s p) (warmOf s p) p cap i
  have hfacts := tradeLog_facts hlog
  refine ⟨fun hpos => (hfacts.2.1 hpos).2.2, hcash, hfacts.1, ?_⟩
  cases hpos : (simAfter (buySigOf s p) (sellSigOf s p) (warmOf s p) p cap i).position
  · have hcnt := (hfacts.2.1 hpos).2.1
    omega
  · have hcnt := (hfacts.2.2.1 hpos).2.1
    omega

/-- Witness for `c10_simulator_invariants` at a concrete strategy, price
series and bar count. -/
theorem c10_simulator_invariants_witness :
    ((stratAfter .smaCross [1, 2, 3] 100 3).position = false →
      (stratAfter .smaCross [1, 2, 3] 100 3).shares = 0) ∧
    ((stratAfter .smaCross [1, 2, 3] 100 3).position = true →
      (stratAfter .smaCross [1, 2, 3] 100 3).cash = 0) ∧
    altB true (stratAfter .smaCross [1, 2, 3] 100 3).trades = true ∧
    countSells (stratAfter .smaCross [1, 2, 3] 100 3).trades ≤
      countBuys (stratAfter .smaCross [1, 2, 3] 100 3).trades :=
  c10_simulator_invariants .smaCross [1, 2, 3] 100 3 (by decide)

/-- C1 (amended): in every signal-driven backtest strategy, every closed
trade immediately follows its opening buy and its recorded realized P&L is
the sale proceeds (shares of that buy times the sale price) minus the
INITIAL CAPITAL of the whole backtest, not minus the cash committed at that
position's entry. -/
theorem c1_realized_pnl (s : SigStrategy) (p : List ℚ) (cap : ℚ) (k : ℕ)
    (q pnl : ℚ)
    (hk : (runStrategy s p cap).trades[k]? = some (.sell q pnl)) :
    ∃ pr sh, 1 ≤ k ∧
      (runStrategy s p cap).trades[k - 1]? = some (.buy pr sh) ∧
      pnl = sh * q - cap := by
  unfold runStrategy stratAfter at hk ⊢
  obtain ⟨hlog, -⟩ :=
    simAfter_inv (buySigOf s p) (sellSigOf s p) (warmOf s p) p cap p.length
  exact (tradeLog_facts hlog).2.2.2 k q pnl hk

/-- A 258-bar price series driving the momentum strategy through two full
round trips: buys at bars 253 and 255, sells at bars 254 and 256. -/
def momCexSeries : List ℚ :=
  (List.range 258).map (fun i =>
    if i = 1 then 10 else if i = 2 then 100 else if i = 3 then 10
    else if i = 4 then 100 else if i = 253 then 50 else if i = 254 then 60
    else if i = 255 then 70 else if i = 256 then 77 else 50)

/-- C1 counterexample: on `momCexSeries` with capital 10000 the momentum
strategy closes its second trade (bought at 70 with 1200/7 shares, i.e.
12000 committed, sold at 77 for 13200 proceeds) recording pnl 3200 =
proceeds - 10000, while sale proceeds minus the cash committed at that
entry is 1200. -/
theorem c1_counterexample :
    (runStrategy .momentum momCexSeries 10000).trades =
      [.buy 50 200, .sell 60 2000, .buy 70 (1200 / 7), .sell 77 3200] ∧
    (1200 / 7 : ℚ) * 77 - 70 * (1200 / 7) = 1200 ∧ (3200 : ℚ) ≠ 1200 := by
  refine ⟨by decide, by norm_num, by norm_num⟩

/-- Witness for `c1_realized_pnl` at the second closed trade of the
momentum run on `momCexSeries`. -/
theorem c1_realized_pnl_witness :
    ∃ pr sh, 1 ≤ 3 ∧
      (runStrategy .momentum momCexSeries 10000).trades[3 - 1]? =
        some (.buy pr sh) ∧
      (3200 : ℚ) = sh * 77 - 10000 :=
  c1_realized_pnl .momentum momCexSeries 10000 3 77 3200 (by decide)

/-- C8: buy-and-hold on any strictly increasing 252-bar series going from
100 to 200 yields total return exactly 1 and a trade log with exactly one
(open) buy and zero closed trades. -/
theorem c8_buy_and_hold (p : List ℚ) (cap : ℚ) (hlen : p.length = 252)
    (hmono : List.Chain' (· < ·) p) (hfirst : p.getD 0 0 = 100)
    (hlast : p.getD 251 0 = 200) (hcap : cap ≠ 0) :
    (buyAndHold p cap).totalReturn = 1 ∧
    buyAndHoldTrades p cap = [.buy 100 (cap / 100)] ∧
    countBuys (buyAndHoldTrades p cap) = 1 ∧
    countSells (buyAndHoldTrades p cap) = 0 ∧
    (buyAndHold p cap).totalTrades = 1 := by
  have htr : buyAndHoldTrades p cap = [.buy 100 (cap / 100)] := by
    unfold buyAndHoldTrades
    rw [hfirst]
  have hlt : 251 < p.length := by omega
  have e1 : p.getD 251 0 = p[251] := by
    rw [List.getD_eq_getElem?_getD, List.getElem?_eq_getElem hlt]
    rfl
  have h251 : p[251]? = some (200 : ℚ) := by
    rw [List.getElem?_eq_getElem hlt, ← e1, hlast]
  have efin :
      (p.map (fun c => cap / p.getD 0 0 * c)).getD
        ((p.map (fun c => cap / p.getD 0 0 * c)).length - 1) 0 = cap / 100 * 200 := by
    rw [List.length_map, hlen]
    rw [List.getD_eq_getElem?_getD]
    show ((p.map (fun c => cap / p.getD 0 0 * c))[251]?).getD 0 = cap / 100 * 200
    rw [List.getElem?_map, h251, hfirst]
    rfl
  refine ⟨?_, htr, by rw [htr]; rfl, by rw [htr]; rfl, ?_⟩
  · show ((p.map (fun c => cap / p.getD 0 0 * c)).getD
        ((p.map (fun c => cap / p.getD 0 0 * c)).length - 1) 0 - cap) / cap = 1
    rw [efin]
    have h2 : cap / 100 * 200 - cap = cap := by ring
    rw [h2, div_self hcap]
  · show (buyAndHoldTrades p cap).length = 1
    rw [htr]
    rfl

/-- Strict monotonicity of a rational list from strict growth of its
`getD` values (used to discharge `Chain'` hypotheses by evaluation, since
the `Chain'` `Decidable` instance does not reduce). -/
theorem chain'_lt_of_getD (l : List ℚ)
    (h : ∀ k < l.length - 1, l.getD k 0 < l.getD (k + 1) 0) :
    List.Chain' (· < ·) l := by
  rw [List.chain'_iff_get]
  intro i hi
  have hi1 : i < l.length := by omega
  have hi2 : i + 1 < l.length := by omega
  have hg := h i (by omega)
  rw [List.getD_eq_getElem?_getD, List.getD_eq_getElem?_getD,
    List.getElem?_eq_getElem hi1, List.getElem?_eq_getElem hi2] at hg
  simpa using hg

/-- The linear 252-bar price series from 100 to 200. -/
def lin252 : List ℚ :=
  (List.range 252).map (fun i => 100 + (100 * i : ℚ) / 251)

/-- Witness for `c8_buy_and_hold`: the linear 252-bar series from 100 to
200 with capital 10000. -/
theorem c8_buy_and_hold_witness :
    (buyAndHold lin252 10000).totalReturn = 1 ∧
    buyAndHoldTrades lin252 10000 =
      [.buy 100 (10000 / 100)] ∧
    countBuys (buyAndHoldTrades lin252 10000) = 1 ∧
    countSells (buyAndHoldTrades lin252 10000) = 0 ∧
    (buyAndHold lin252 10000).totalTrades = 1 :=
  c8_buy_and_hold _ 10000 (by decide) (chain'_lt_of_getD _ (by decide)) (by decide)
    (by decide) (by norm_num)

/-- C9: `run_backtest` on any strategy id other than the six supported names
returns exactly the buy-and-hold result on the same prices and capital. -/
theorem c9_unknown_strategy (p : List ℚ) (cap : ℚ) (s : String)
    (h : s ∉ ["buy_and_hold", "sma_crossover", "macd", "rsi_reversal",
      "momentum", "mean_reversion"]) :
    run_backtest p s cap = buyAndHold p cap := by
  simp only [List.mem_cons, List.not_mem_nil, or_false, not_or] at h
  obtain ⟨h1, h2, h3, h4, h5, h6⟩ := h
  unfold run_backtest
  rw [if_neg h1, if_neg h2, if_neg h3, if_neg h4, if_neg h5, if_neg h6]

/-- Witness for `c9_unknown_strategy` at a concrete unknown id. -/
theorem c9_unknown_strategy_witness :
    run_backtest [1, 2] "bollinger" 100 = buyAndHold [1, 2] 100 :=
  c9_unknown_strategy [1, 2] 100 "bollinger" (by decide)

/-- C2 (amended): for every non-empty equity curve the reported curve keeps
the bars at indices `0, step, 2·step, …` with `step = max(1, n // 100)`:
it has `⌈n/step⌉` points (between 100 and 199 of them once `n ≥ 100`),
always contains the first bar, is evenly spaced with stride `step`, and
contains the LAST bar if and only if `step` divides `n - 1`. -/
theorem c2_equity_downsampling (ec : List ℚ) (hne : ec ≠ []) :
    (equityData ec).length =
      (ec.length + max 1 (ec.length / 100) - 1) / max 1 (ec.length / 100) ∧
    (equityData ec).head? = some (0, ec.getD 0 0) ∧
    (∀ k (hk : k < (equityData ec).length),
      ((equityData ec).get ⟨k, hk⟩).1 = k * max 1 (ec.length / 100)) ∧
    (100 ≤ ec.length →
      100 ≤ (equityData ec).length ∧ (equityData ec).length ≤ 199) ∧
    ((∃ pr ∈ equityData ec, pr.1 = ec.length - 1) ↔
      max 1 (ec.length / 100) ∣ (ec.length - 1)) := by
  have hn : 1 ≤ ec.length := List.length_pos.mpr hne
  set n := ec.length with hdefn
  set s := max 1 (n / 100) with hdefs
  have hs : 0 < s := lt_of_lt_of_le one_pos (le_max_left _ _)
  have hcnt : (equityData ec).length = (n + s - 1) / s := by
    simp [equityData]
  have hcnt1 : 1 ≤ (n + s - 1) / s := by
    rw [Nat.le_div_iff_mul_le hs]
    omega
  refine ⟨hcnt, ?_, ?_, ?_, ?_⟩
  · rw [List.head?_eq_getElem?]
    unfold equityData
    rw [List.getElem?_map, List.getElem?_range (by rw [← hdefn, ← hdefs]; omega)]
    simp
  · intro k hk
    rw [hcnt] at hk
    unfold equityData
    simp only [List.get_eq_getElem, List.getElem_map, List.getElem_range]
  · intro h100
    have hsval : s = n / 100 := by
      rw [hdefs, Nat.max_eq_right]
      rw [Nat.one_le_div_iff (by omega)]
      exact h100
    have hmul : s * 100 ≤ n := by
      rw [hsval]
      exact Nat.div_mul_le_self n 100
    have hmod : 100 * (n / 100) + n % 100 = n := Nat.div_add_mod n 100
    have hr : n % 100 < 100 := Nat.mod_lt _ (by omega)
    constructor
    · rw [hcnt, Nat.le_div_iff_mul_le hs]
      omega
    · rw [hcnt]
      have : (n + s - 1) / s < 200 := by
        rw [Nat.div_lt_iff_lt_mul hs]
        rw [hsval] at hs ⊢
        omega
      omega
  · constructor
    · rintro ⟨pr, hmem, hfst⟩
      unfold equityData at hmem
      obtain ⟨k, -, rfl⟩ := List.mem_map.mp hmem
      exact ⟨k, by rw [← hfst]; exact (mul_comm _ _)⟩
    · rintro ⟨k, hk⟩
      have hkval : (n - 1) / s = k := by
        rw [hk, Nat.mul_div_cancel_left k hs]
      have hcnt2 : (n + s - 1) / s = (n - 1) / s + 1 := by
        have : n + s - 1 = (n - 1) + s := by omega
        rw [this, Nat.add_div_right _ hs]
      refine ⟨(k * s, ec.getD (k * s) 0), ?_, ?_⟩
      · unfold equityData
        exact List.mem_map.mpr ⟨k, List.mem_range.mpr (by
          rw [← hdefn, ← hdefs, hcnt2, hkval]
          omega), rfl⟩
      · show k * s = n - 1
        rw [hk, mul_comm]

/-- A 250-bar price series for the downsampling counterexample. -/
def curve250 : List ℚ :=
  (List.range 250).map (fun i => (i : ℚ) + 100)

/-- C2 counterexample: a buy-and-hold backtest over 250 bars produces an
equity curve whose reported points are the bars at even indices 0..248, so
the last bar (index 249) is NOT included. -/
theorem c2_counterexample :
    curve250.length = 250 ∧
    (∀ pr ∈ (buyAndHold curve250 1000).equityCurve, pr.1 ≠ 249) := by
  refine ⟨by decide, by decide⟩

/-- C6 (amended): whenever the trailing average gain and loss are defined
and the average loss is 0, the RSI computation produces no error: it yields
exactly 100 when the average gain is nonzero, and NaN (no value, from the
float `0/0`) when the average gain is also 0; with a nonzero average loss
it yields the usual `100 - 100/(1 + rs)`. -/
theorem c6_rsi_zero_loss {K : Type} [LinearOrderedField K] (p : List K)
    (i : ℕ) (g l : K) (hg : avgGainAt 14 p i = some g)
    (hl : avgLossAt 14 p i = some l) :
    (l = 0 → g ≠ 0 → rsiAt 14 p i = some 100) ∧
    (l = 0 → g = 0 → rsiAt 14 p i = none) ∧
    (l ≠ 0 → rsiAt 14 p i = some (100 - 100 / (1 + g / l))) := by
  unfold rsiAt
  rw [hg, hl]
  refine ⟨fun h0 hgne => ?_, fun h0 hg0 => ?_, fun hne => ?_⟩
  · show (if l = 0 then (if g = 0 then none else some 100)
      else some (100 - 100 / (1 + g / l))) = some 100
    rw [if_pos h0, if_neg hgne]
  · show (if l = 0 then (if g = 0 then none else some 100)
      else some (100 - 100 / (1 + g / l))) = none
    rw [if_pos h0, if_pos hg0]
  · show (if l = 0 then (if g = 0 then none else some 100)
      else some (100 - 100 / (1 + g / l))) = some (100 - 100 / (1 + g / l))
    rw [if_neg hne]

/-- A strictly increasing 15-bar series: all gains, zero losses. -/
def inc15 : List ℚ :=
  (List.range 15).map (fun i => (i : ℚ) + 1)

/-- A flat 15-bar series: zero gains and zero losses. -/
def flat15 : List ℚ :=
  List.replicate 15 5

/-- Witness for `c6_rsi_zero_loss` at index 13, the first index at which
the rolling averages are defined (its window contains the imputed 0): the
average loss is 0, the average gain is 13/14, and the RSI is exactly 100. -/
theorem c6_rsi_zero_loss_witness : rsiAt 14 inc15 13 = some 100 :=
  (c6_rsi_zero_loss inc15 13 (13 / 14) 0 (by decide) (by decide)).1 rfl
    (by norm_num)

/-- C6 counterexample: on a flat series the trailing average loss is 0 yet
the RSI at that index is NaN (`0/0`), not 100. -/
theorem c6_counterexample :
    avgLossAt 14 flat15 14 = some 0 ∧ rsiAt 14 flat15 14 ≠ some 100 := by
  refine ⟨by decide, by decide⟩

/-- C3 (amended): for every non-empty signal list the aggregate strength of
each action is the SUM of that action's strengths divided by the total
signal count (not the mean divided by the total count); the consensus is
buy exactly when the buy aggregate beats the sell aggregate and the 0.3
threshold (symmetrically for sell), hold carries strength 0.5, and a
unanimous buy list of common strength above 0.3 aggregates to buy with that
same strength (so five buys of strength 0.8 give buy/0.8). -/
theorem c3_aggregate_consensus (sigs : List (Signal ℚ)) (hne : sigs ≠ []) :
    buyStrength sigs =
      ((sigs.filter (fun s => s.action = .buy)).map (·.strength)).sum /
        (sigs.length : ℚ) ∧
    sellStrength sigs =
      ((sigs.filter (fun s => s.action = .sell)).map (·.strength)).sum /
        (sigs.length : ℚ) ∧
    ((aggregate_signals sigs).action = .buy ↔
      sellStrength sigs < buyStrength sigs ∧ 3 / 10 < buyStrength sigs) ∧
    ((aggregate_signals sigs).action = .sell ↔
      buyStrength sigs < sellStrength sigs ∧ 3 / 10 < sellStrength sigs) ∧
    ((aggregate_signals sigs).action = .buy →
      (aggregate_signals sigs).strength = buyStrength sigs) ∧
    ((aggregate_signals sigs).action = .sell →
      (aggregate_signals sigs).strength = sellStrength sigs) ∧
    ((aggregate_signals sigs).action = .hold →
      (aggregate_signals sigs).strength = 1 / 2) ∧
    (∀ q : ℚ, (∀ s ∈ sigs, s.action = .buy ∧ s.strength = q) → 3 / 10 < q →
      (aggregate_signals sigs).action = .buy ∧
      (aggregate_signals sigs).strength = q) := by
  have hfilterB : buyStrength sigs =
      ((sigs.filter (fun s => s.action = .buy)).map (·.strength)).sum /
        (sigs.length : ℚ) := by
    unfold buyStrength
    dsimp only
    split
    · next hemp =>
        rw [List.isEmpty_iff] at hemp
        rw [hemp]
        simp
    · rfl
  have hfilterS : sellStrength sigs =
      ((sigs.filter (fun s => s.action = .sell)).map (·.strength)).sum /
        (sigs.length : ℚ) := by
    unfold sellStrength
    dsimp only
    split
    · next hemp =>
        rw [List.isEmpty_iff] at hemp
        rw [hemp]
        simp
    · rfl
  refine ⟨hfilterB, hfilterS, ?_, ?_, ?_, ?_, ?_, ?_⟩
  · unfold aggregate_signals
    dsimp only
    split_ifs with h1 h2
    · exact iff_of_true rfl h1
    · exact iff_of_false (by simp) h1
    · exact iff_of_false (by simp) h1
  · unfold aggregate_signals
    dsimp only
    split_ifs with h1 h2
    · refine iff_of_false (by simp) (fun hc => absurd hc.1 (not_lt.mpr h1.1.le))
    · exact iff_of_true rfl h2
    · exact iff_of_false (by simp) h2
  · unfold aggregate_signals
    dsimp only
    split_ifs with h1 h2
    · intro _
      rfl
    · intro hc
      simp at hc
    · intro hc
      simp at hc
  · unfold aggregate_signals
    dsimp only
    split_ifs with h1 h2
    · intro hc
      simp at hc
    · intro _
      rfl
    · intro hc
      simp at hc
  · unfold aggregate_signals
    dsimp only
    split_ifs with h1 h2
    · intro hc
      simp at hc
    · intro hc
      simp at hc
    · intro _
      rfl
  · intro q hall hq
    have hlen : (sigs.length : ℚ) ≠ 0 :=
      Nat.cast_ne_zero.mpr (List.length_pos.mpr hne).ne'
    have hbuys : sigs.filter (fun s => s.action = .buy) = sigs :=
      List.filter_eq_self.mpr (fun s hs => by simp [(hall s hs).1])
    have hsells : sigs.filter (fun s => s.action = .sell) = [] :=
      List.filter_eq_nil_iff.mpr (fun s hs => by simp [(hall s hs).1])
    have hmapq : sigs.map (·.strength) = List.replicate sigs.length q := by
      rw [List.eq_replicate_iff]
      refine ⟨by simp, ?_⟩
      intro b hb
      obtain ⟨s, hs, rfl⟩ := List.mem_map.mp hb
      exact (hall s hs).2
    have hbs : buyStrength sigs = q := by
      rw [hfilterB, hbuys, hmapq, List.sum_replicate, nsmul_eq_mul,
        mul_div_cancel_left₀ _ hlen]
    have hss : sellStrength sigs = 0 := by
      rw [hfilterS, hsells]
      simp
    have hcond : sellStrength sigs < buyStrength sigs ∧
        3 / 10 < buyStrength sigs := by
      rw [hbs, hss]
      exact ⟨lt_trans (by norm_num) hq, hq⟩
    unfold aggregate_signals
    dsimp only
    rw [if_pos hcond]
    exact ⟨rfl, hbs⟩

/-- Five buy signals of strength 0.8 (the specification's own consensus
example). -/
def fiveBuys : List (Signal ℚ) :=
  List.replicate 5 ⟨.buy, 8 / 10⟩

/-- C3 counterexample: on five buys of strength 0.8 the code's buy
aggregate is 0.8 (sum 4.0 over 5 signals) and the consensus strength is
0.8, while the claimed formula "mean strength of the buy subset divided by
the total signal count" gives 0.16 ≠ 0.8. -/
theorem c3_counterexample :
    buyStrength fiveBuys = 4 / 5 ∧
    specActionStrength .buy fiveBuys = 4 / 25 ∧
    (aggregate_signals fiveBuys).strength = 4 / 5 ∧
    ((4 : ℚ) / 5 ≠ 4 / 25) := by
  refine ⟨by decide, by decide, by decide, by norm_num⟩

/-- Witness for `c3_aggregate_consensus` on the unanimous five-buy list. -/
theorem c3_aggregate_consensus_witness :
    (aggregate_signals fiveBuys).action = .buy ∧
    (aggregate_signals fiveBuys).strength = 8 / 10 :=
  (c3_aggregate_consensus fiveBuys (by decide)).2.2.2.2.2.2.2 (8 / 10)
    (by decide) (by norm_num)

/-- Witness for `c2_equity_downsampling` on the 250-bar curve. -/
theorem c2_equity_downsampling_witness :
    (equityData curve250).length =
      (curve250.length + max 1 (curve250.length / 100) - 1) /
        max 1 (curve250.length / 100) ∧
    (equityData curve250).head? = some (0, curve250.getD 0 0) ∧
    (∀ k (hk : k < (equityData curve250).length),
      ((equityData curve250).get ⟨k, hk⟩).1 = k * max 1 (curve250.length / 100)) ∧
    (100 ≤ curve250.length →
      100 ≤ (equityData curve250).length ∧ (equityData curve250).length ≤ 199) ∧
    ((∃ pr ∈ equityData curve250, pr.1 = curve250.length - 1) ↔
      max 1 (curve250.length / 100) ∣ (curve250.length - 1)) :=
  c2_equity_downsampling curve250 (by decide)

theorem windowAt_some {K : Type} [LinearOrderedField K] {w : ℕ} {p : List K}
    {i : ℕ} {win : List K} (h : windowAt w p i = some win) :
    win.length = w ∧ (∀ x ∈ win, x ∈ p) ∧ w ≤ i + 1 ∧ i < p.length := by
  unfold windowAt at h
  split at h
  · next hc =>
      obtain ⟨hw, hi⟩ := hc
      injection h with h
      subst h
      refine ⟨?_, ?_, hw, hi⟩
      · rw [List.length_take, List.length_drop]
        omega
      · intro x hx
        exact List.mem_of_mem_drop (List.mem_of_mem_take hx)
  · exact absurd h (by simp)

theorem smaAt_pos {K : Type} [LinearOrderedField K] {w : ℕ} {p : List K}
    {i : ℕ} {m : K} (hw : 0 < w) (hp : ∀ x ∈ p, 0 < x)
    (h : smaAt w p i = some m) : 0 < m := by
  unfold smaAt at h
  cases hwin : windowAt w p i with
  | none =>
      rw [hwin] at h
      simp at h
  | some win =>
      rw [hwin] at h
      simp only [Option.map_some'] at h
      injection h with h
      obtain ⟨hlen, hmem, -, -⟩ := windowAt_some hwin
      have hne : win ≠ [] := by
        intro h0
        rw [h0] at hlen
        simp at hlen
        omega
      have hsum : 0 < win.sum :=
        List.sum_pos win (fun x hx => hp x (hmem x hx)) hne
      rw [← h]
      exact div_pos hsum (by exact_mod_cast hw)

theorem smaAt_dom {K : Type} [LinearOrderedField K] {w : ℕ} {p : List K}
    {i : ℕ} {m : K} (h : smaAt w p i = some m) : w ≤ i + 1 ∧ i < p.length := by
  unfold smaAt at h
  cases hwin : windowAt w p i with
  | none =>
      rw [hwin] at h
      simp at h
  | some win =>
      obtain ⟨-, -, hw, hi⟩ := windowAt_some hwin
      exact ⟨hw, hi⟩

theorem varAt_nonneg {K : Type} [LinearOrderedField K] {w : ℕ} {p : List K}
    {i : ℕ} {v : K} (hw : 2 ≤ w) (h : varAt w p i = some v) : 0 ≤ v := by
  unfold varAt at h
  cases hwin : windowAt w p i with
  | none =>
      rw [hwin] at h
      simp at h
  | some win =>
      rw [hwin] at h
      simp only [Option.map_some'] at h
      injection h with h
      have hsum : 0 ≤ (win.map (fun x => (x - win.sum / (w : K)) ^ 2)).sum := by
        apply List.sum_nonneg
        intro x hx
        obtain ⟨y, -, rfl⟩ := List.mem_map.mp hx
        positivity
      have hden : (0 : K) ≤ (w : K) - 1 := by
        have : (2 : K) ≤ (w : K) := by exact_mod_cast hw
        linarith
      rw [← h]
      exact div_nonneg hsum hden

theorem getD_pos_of_lt {K : Type} [LinearOrderedField K] {p : List K}
    (hp : ∀ x ∈ p, 0 < x) {i : ℕ} (hi : i < p.length) : 0 < p.getD i 0 := by
  rw [List.getD_eq_getElem?_getD, List.getElem?_eq_getElem hi]
  exact hp _ (List.getElem_mem hi)

theorem getD_nonneg {K : Type} [LinearOrderedField K] {p : List K}
    (hp : ∀ x ∈ p, 0 < x) (i : ℕ) : 0 ≤ p.getD i 0 := by
  by_cases hi : i < p.length
  · exact (getD_pos_of_lt hp hi).le
  · rw [List.getD_eq_default _ _ (le_of_not_lt hi)]

theorem smaCrossCore_bounds {K : Type} [LinearOrderedField K]
    (cs cl ps pl : K) (hcl : 0 < cl) :
    0 ≤ (smaCrossCore cs cl ps pl).strength ∧
    (smaCrossCore cs cl ps pl).strength ≤ 1 := by
  unfold smaCrossCore
  split_ifs with h1 h2 h3
  · exact ⟨le_min (by norm_num)
      (mul_nonneg (div_nonneg (sub_nonneg.mpr h1.1.le) hcl.le) (by norm_num)),
      min_le_left _ _⟩
  · exact ⟨le_min (by norm_num)
      (mul_nonneg (div_nonneg (sub_nonneg.mpr h2.1.le) hcl.le) (by norm_num)),
      min_le_left _ _⟩
  · exact ⟨by norm_num, by norm_num⟩
  · exact ⟨by norm_num, by norm_num⟩

theorem sma_crossover_strength_bounds (p : List ℝ) (hp : ∀ x ∈ p, 0 < x) :
    0 ≤ (sma_crossover_signal p).strength ∧
    (sma_crossover_signal p).strength ≤ 1 := by
  unfold sma_crossover_signal
  dsimp only
  rcases hcs : smaAt 20 p (p.length - 1) with _ | cs <;>
    rcases hcl : smaAt 50 p (p.length - 1) with _ | cl <;>
    rcases hps : smaAt 20 p (p.length - 2) with _ | ps <;>
    rcases hpl : smaAt 50 p (p.length - 2) with _ | pl <;>
    simp only [hcs, hcl, hps, hpl]
  · exact ⟨by norm_num, by norm_num⟩
  all_goals first
    | exact smaCrossCore_bounds cs cl ps pl (smaAt_pos (by norm_num) hp hcl)
    | (constructor <;> norm_num)

theorem macd_strength_bounds (p : List ℝ) (hp : ∀ x ∈ p, 0 < x) :
    0 ≤ (macd_signal p).strength ∧ (macd_signal p).strength ≤ 1 := by
  unfold macd_signal
  dsimp only
  split_ifs with h1 h2 h3
  · exact ⟨le_min (by norm_num)
      (mul_nonneg (div_nonneg (abs_nonneg _) (getD_nonneg hp _)) (by norm_num)),
      min_le_left _ _⟩
  · exact ⟨le_min (by norm_num)
      (mul_nonneg (div_nonneg (abs_nonneg _) (getD_nonneg hp _)) (by norm_num)),
      min_le_left _ _⟩
  · exact ⟨by norm_num, by norm_num⟩
  · exact ⟨by norm_num, by norm_num⟩

theorem rsiCore_bounds {K : Type} [LinearOrderedField K] (os ob cur prev : K)
    (hos : 0 < os) (hob : ob < 100) :
    0 ≤ (rsiCore os ob cur prev).strength ∧
    (rsiCore os ob cur prev).strength ≤ 1 := by
  unfold rsiCore
  split_ifs with h1 h2 h3 h4
  · refine ⟨le_min (by norm_num) ?_, min_le_left _ _⟩
    have : 0 ≤ (os - prev) / os :=
      div_nonneg (sub_nonneg.mpr h1.2) hos.le
    linarith
  · refine ⟨le_min (by norm_num) ?_, min_le_left _ _⟩
    have : 0 ≤ (prev - ob) / (100 - ob) :=
      div_nonneg (sub_nonneg.mpr h2.2) (by linarith)
    linarith
  · exact ⟨by norm_num, by norm_num⟩
  · exact ⟨by norm_num, by norm_num⟩
  · exact ⟨by norm_num, by norm_num⟩

theorem rsi_strength_bounds (p : List ℝ) :
    0 ≤ (rsi_signal p).strength ∧ (rsi_signal p).strength ≤ 1 := by
  unfold rsi_signal
  dsimp only
  rcases hc : rsiAt 14 p (p.length - 1) with _ | cur <;>
    rcases hpv : rsiAt 14 p (p.length - 2) with _ | prev <;>
    simp only [hc, hpv]
  · exact ⟨by norm_num, by norm_num⟩
  · exact ⟨by norm_num, by norm_num⟩
  · split_ifs <;> exact ⟨by norm_num, by norm_num⟩
  · exact rsiCore_bounds 30 70 cur prev (by norm_num) (by norm_num)

theorem bandsAt_some {p : List ℝ} {i : ℕ} {u m l : ℝ}
    (h : bandsAt p i = some (u, m, l)) :
    ∃ v, smaAt 20 p i = some m ∧ varAt 20 p i = some v ∧ 0 ≤ v ∧
      u = m + 2 * Real.sqrt v ∧ l = m - 2 * Real.sqrt v := by
  unfold bandsAt at h
  rcases hm : smaAt 20 p i with _ | m' <;> rcases hv : varAt 20 p i with _ | v <;>
    rw [hm, hv] at h
  · exact absurd h (by simp)
  · exact absurd h (by simp)
  · exact absurd h (by simp)
  · simp only [Option.some.injEq, Prod.mk.injEq] at h
    obtain ⟨hu, hmid, hl⟩ := h
    subst hmid
    exact ⟨v, rfl, rfl, varAt_nonneg (by norm_num) hv, hu.symm, hl.symm⟩

theorem bollinger_strength_bounds (p : List ℝ) (hp : ∀ x ∈ p, 0 < x) :
    0 ≤ (bollinger_bands_signal p).strength ∧
    (bollinger_bands_signal p).strength ≤ 1 := by
  unfold bollinger_bands_signal
  dsimp only
  rcases hb : bandsAt p (p.length - 1) with _ | ⟨u, m, l⟩
  · simp only [hb]
    exact ⟨by norm_num, by norm_num⟩
  · simp only [hb]
    obtain ⟨v, hm, -, hv0, hu, hl⟩ := bandsAt_some hb
    have hmpos : 0 < m := smaAt_pos (by norm_num) hp hm
    have hlen : p.length - 1 < p.length := (smaAt_dom hm).2
    have hprice : 0 < p.getD (p.length - 1) 0 := getD_pos_of_lt hp hlen
    have hsqrt : 0 ≤ Real.sqrt v := Real.sqrt_nonneg v
    split_ifs with hbuy hsell
    · have hlpos : 0 < l := lt_of_lt_of_le hprice hbuy
      exact ⟨le_min (by norm_num) (by
        have : 0 ≤ (l - p.getD (p.length - 1) 0) / l * 10 :=
          mul_nonneg (div_nonneg (sub_nonneg.mpr hbuy) hlpos.le) (by norm_num)
        linarith), min_le_left _ _⟩
    · have hupos : 0 < u := by
        rw [hu]
        linarith
      exact ⟨le_min (by norm_num) (by
        have : 0 ≤ (p.getD (p.length - 1) 0 - u) / u * 10 :=
          mul_nonneg (div_nonneg (sub_nonneg.mpr hsell) hupos.le) (by norm_num)
        linarith), min_le_left _ _⟩
    · exact ⟨by norm_num, by norm_num⟩

theorem momentumCore_bounds {K : Type} [LinearOrderedField K] (mom momS : K) :
    0 ≤ (momentumCore mom momS).strength ∧ (momentumCore mom momS).strength ≤ 1 := by
  unfold momentumCore
  split_ifs with h1 h2 h3 h4
  · exact ⟨le_min (by norm_num) (by linarith [h1.1]), min_le_left _ _⟩
  · exact ⟨le_min (by norm_num) (abs_nonneg _), min_le_left _ _⟩
  · exact ⟨by norm_num, by norm_num⟩
  · exact ⟨by norm_num, by norm_num⟩
  · exact ⟨by norm_num, by norm_num⟩

theorem momentum_strength_bounds (p : List ℝ) :
    0 ≤ (momentum_signal p).strength ∧ (momentum_signal p).strength ≤ 1 := by
  unfold momentum_signal
  exact momentumCore_bounds _ _

/-- C4: every signal generator returns a strength in `[0, 1]` on every
price series of length at least 2 (prices being positive, as prices are). -/
theorem c4_strength_bounds (g : GenId) (p : List ℝ) (hlen : 2 ≤ p.length)
    (hp : ∀ x ∈ p, 0 < x) :
    0 ≤ (signalOf g p).strength ∧ (signalOf g p).strength ≤ 1 := by
  cases g
  · exact sma_crossover_strength_bounds p hp
  · exact macd_strength_bounds p hp
  · exact rsi_strength_bounds p
  · exact bollinger_strength_bounds p hp
  · exact momentum_strength_bounds p

/-- Witness for `c4_strength_bounds` at a concrete generator and series. -/
theorem c4_strength_bounds_witness :
    0 ≤ (signalOf .momentum [1, 2]).strength ∧
    (signalOf .momentum [1, 2]).strength ≤ 1 :=
  c4_strength_bounds .momentum [1, 2] (by norm_num) (by
    intro x hx
    simp only [List.mem_cons, List.not_mem_nil, or_false] at hx
    rcases hx with rfl | rfl <;> norm_num)

/-- Strict-descending-with-stable-ties order on scored entries: scores
weakly decrease and equal scores keep the original universe order. -/
def ROrd (x y : Scored) : Prop :=
  y.combined ≤ x.combined ∧ (x.combined ≤ y.combined → x.idx < y.idx)

theorem mem_insDesc {x a : Scored} {l : List Scored} :
    x ∈ insDesc a l ↔ x = a ∨ x ∈ l := by
  induction l with
  | nil => simp [insDesc]
  | cons b t ih =>
      unfold insDesc
      split_ifs with hle
      · simp [List.mem_cons]
      · simp only [List.mem_cons, ih]
        tauto

theorem insDesc_perm (a : Scored) (l : List Scored) : List.Perm (insDesc a l) (a :: l) := by
  induction l with
  | nil => exact List.Perm.refl _
  | cons b t ih =>
      unfold insDesc
      split_ifs with hle
      · exact List.Perm.refl _
      · exact (ih.cons b).trans (List.Perm.swap a b t)

theorem pairwise_insDesc {a : Scored} {l : List Scored}
    (hl : l.Pairwise ROrd) (ha : ∀ b ∈ l, a.idx < b.idx) :
    (insDesc a l).Pairwise ROrd := by
  induction l with
  | nil => simp [insDesc]
  | cons b t ih =>
      obtain ⟨hb, ht⟩ := List.pairwise_cons.mp hl
      unfold insDesc
      split_ifs with hle
      · refine List.pairwise_cons.mpr ⟨?_, hl⟩
        intro c hc
        rcases List.mem_cons.mp hc with rfl | hct
        · exact ⟨hle, fun _ => ha c (List.mem_cons_self _ _)⟩
        · exact ⟨le_trans (hb c hct).1 hle,
            fun _ => ha c (List.mem_cons_of_mem _ hct)⟩
      · refine List.pairwise_cons.mpr
          ⟨?_, ih ht (fun c hc => ha c (List.mem_cons_of_mem _ hc))⟩
        intro c hc
        rcases mem_insDesc.mp hc with rfl | hct
        · have hab := lt_of_not_le hle
          exact ⟨hab.le, fun hba => absurd hba (not_le.mpr hab)⟩
        · exact hb c hct

theorem sortDesc_perm (l : List Scored) : List.Perm (sortDesc l) l := by
  induction l with
  | nil => exact List.Perm.refl _
  | cons a t ih => exact (insDesc_perm a (sortDesc t)).trans (ih.cons a)

theorem pairwise_sortDesc {l : List Scored}
    (h : l.Pairwise (fun x y => x.idx < y.idx)) :
    (sortDesc l).Pairwise ROrd := by
  induction l with
  | nil => exact List.Pairwise.nil
  | cons a t ih =>
      obtain ⟨ha, ht⟩ := List.pairwise_cons.mp h
      exact pairwise_insDesc (ih ht)
        (fun b hb => ha b ((sortDesc_perm t).subset hb))

theorem scoredList_pairwise_idx (pref : String) (assets : List AssetInput) :
    (scoredList pref assets).Pairwise (fun x y => x.idx < y.idx) := by
  unfold scoredList
  rw [List.pairwise_map, List.pairwise_iff_getElem]
  intro i j hi hj hij
  simp only [List.getElem_enum]
  exact hij

theorem mem_scoredList {pref : String} {assets : List AssetInput} {x : Scored}
    (hx : x ∈ scoredList pref assets) :
    x.asset ∈ assets ∧ x.combined = combinedScore pref x.asset := by
  unfold scoredList at hx
  obtain ⟨ia, hia, rfl⟩ := List.mem_map.mp hx
  obtain ⟨i, a⟩ := ia
  obtain ⟨hlt, hval⟩ := List.mem_enum hia
  exact ⟨hval ▸ List.getElem_mem hlt, rfl⟩

theorem riskScore_ge_30 (pref : String) (a : AssetInput) :
    30 ≤ riskScore pref a := by
  unfold riskScore
  split_ifs <;> norm_num

theorem combinedScore_pos (pref : String) (a : AssetInput)
    (hf : 0 ≤ a.fScore) (ht : 0 ≤ a.tScore) (hs : 0 ≤ a.sScore) :
    0 < combinedScore pref a := by
  have hr := riskScore_ge_30 pref a
  unfold combinedScore weightsOf
  dsimp only
  split_ifs <;> dsimp only <;> linarith

theorem enum_map_snd_comp {α β : Type} (l : List α) (g : α → β) :
    l.enum.map (fun ks => g ks.2) = l.map g := by
  rw [show (fun ks : ℕ × α => g ks.2) = g ∘ Prod.snd from rfl,
    ← List.map_map, List.enum_map_snd]

theorem sum_map_div_mul (l : List Scored) (t : ℚ) :
    (l.map (fun sc => sc.combined / t * 100)).sum =
      (l.map (·.combined)).sum / t * 100 := by
  induction l with
  | nil => simp
  | cons a tl ih =>
      simp only [List.map_cons, List.sum_cons, ih, add_div, add_mul]

theorem optimize_get_facts (pref : String) (budget : ℚ)
    (assets : List AssetInput) (k : ℕ)
    (hk : k < (optimizePortfolio pref budget assets).length)
    (hk2 : k < (rankedOf pref assets).length) :
    ((optimizePortfolio pref budget assets).get ⟨k, hk⟩).rank = k + 1 ∧
    ((optimizePortfolio pref budget assets).get ⟨k, hk⟩).combined =
      ((rankedOf pref assets).get ⟨k, hk2⟩).combined ∧
    ((optimizePortfolio pref budget assets).get ⟨k, hk⟩).idx =
      ((rankedOf pref assets).get ⟨k, hk2⟩).idx := by
  refine ⟨?_, ?_, ?_⟩ <;>
    simp [optimizePortfolio, List.get_eq_getElem, List.getElem_map,
      List.getElem_enum]

/-- C5: for every non-empty universe (with the category scores nonnegative,
as the upstream analyses guarantee) and every risk preference, the ranker
keeps exactly `min 10 |universe|` picks, their allocation percentages sum
exactly to 100, ranks are `1..min 10 |universe|` in order, the picks are
sorted by combined score descending, and ties keep the original universe
order. -/
theorem c5_ranker (pref : String) (budget : ℚ) (assets : List AssetInput)
    (hne : assets ≠ [])
    (hscores : ∀ a ∈ assets, 0 ≤ a.fScore ∧ 0 ≤ a.tScore ∧ 0 ≤ a.sScore) :
    (optimizePortfolio pref budget assets).length = min 10 assets.length ∧
    ((optimizePortfolio pref budget assets).map (·.allocationPct)).sum = 100 ∧
    (∀ k (hk : k < (optimizePortfolio pref budget assets).length),
      ((optimizePortfolio pref budget assets).get ⟨k, hk⟩).rank = k + 1) ∧
    (∀ i j (hi : i < (optimizePortfolio pref budget assets).length)
      (hj : j < (optimizePortfolio pref budget assets).length), i < j →
      ((optimizePortfolio pref budget assets).get ⟨j, hj⟩).combined ≤
        ((optimizePortfolio pref budget assets).get ⟨i, hi⟩).combined) ∧
    (∀ i j (hi : i < (optimizePortfolio pref budget assets).length)
      (hj : j < (optimizePortfolio pref budget assets).length), i < j →
      ((optimizePortfolio pref budget assets).get ⟨i, hi⟩).combined =
        ((optimizePortfolio pref budget assets).get ⟨j, hj⟩).combined →
      ((optimizePortfolio pref budget assets).get ⟨i, hi⟩).idx <
        ((optimizePortfolio pref budget assets).get ⟨j, hj⟩).idx) := by
  have hSlen : (scoredList pref assets).length = assets.length := by
    unfold scoredList
    simp
  have hsortlen : (sortDesc (scoredList pref assets)).length = assets.length := by
    rw [(sortDesc_perm _).length_eq, hSlen]
  have hrlen : (rankedOf pref assets).length = min 10 assets.length := by
    unfold rankedOf
    rw [List.length_take, hsortlen]
  have hplen : (optimizePortfolio pref budget assets).length =
      (rankedOf pref assets).length := by
    unfold optimizePortfolio
    simp
  have hmemS : ∀ x ∈ rankedOf pref assets, x ∈ scoredList pref assets :=
    fun x hx => (sortDesc_perm _).subset ((List.take_sublist _ _).subset hx)
  have hposc : ∀ x ∈ rankedOf pref assets, 0 < x.combined := by
    intro x hx
    obtain ⟨hmem, hcomb⟩ := mem_scoredList (hmemS x hx)
    obtain ⟨hf, ht, hs⟩ := hscores _ hmem
    rw [hcomb]
    exact combinedScore_pos pref _ hf ht hs
  have hrne : rankedOf pref assets ≠ [] := by
    apply List.ne_nil_of_length_pos
    rw [hrlen]
    have := List.length_pos.mpr hne
    omega
  have htotal : 0 < totalOf pref assets := by
    unfold totalOf
    apply List.sum_pos
    · intro y hy
      obtain ⟨x, hx, rfl⟩ := List.mem_map.mp hy
      exact hposc x hx
    · simpa using hrne
  have hpw : (rankedOf pref assets).Pairwise ROrd := by
    unfold rankedOf
    exact List.Pairwise.sublist (List.take_sublist _ _)
      (pairwise_sortDesc (scoredList_pairwise_idx pref assets))
  have hpwget := List.pairwise_iff_getElem.mp hpw
  refine ⟨by rw [hplen, hrlen], ?_, ?_, ?_, ?_⟩
  · have hmapalloc :
        (optimizePortfolio pref budget assets).map (·.allocationPct) =
        (rankedOf pref assets).map (fun sc =>
          if 0 < totalOf pref assets then
            sc.combined / totalOf pref assets * 100 else 10) := by
      unfold optimizePortfolio
      rw [List.map_map]
      exact enum_map_snd_comp (rankedOf pref assets) (fun sc =>
        if 0 < totalOf pref assets then
          sc.combined / totalOf pref assets * 100 else 10)
    have hcond : (fun sc : Scored =>
        if 0 < totalOf pref assets then
          sc.combined / totalOf pref assets * 100 else 10) =
        (fun sc : Scored => sc.combined / totalOf pref assets * 100) := by
      funext sc
      rw [if_pos htotal]
    rw [hmapalloc, hcond, sum_map_div_mul]
    show totalOf pref assets / totalOf pref assets * 100 = 100
    rw [div_self htotal.ne', one_mul]
  · intro k hk
    exact (optimize_get_facts pref budget assets k hk (hplen ▸ hk)).1
  · intro i j hi hj hij
    have hi2 : i < (rankedOf pref assets).length := hplen ▸ hi
    have hj2 : j < (rankedOf pref assets).length := hplen ▸ hj
    rw [(optimize_get_facts pref budget assets i hi hi2).2.1,
      (optimize_get_facts pref budget assets j hj hj2).2.1]
    exact (hpwget i j hi2 hj2 hij).1
  · intro i j hi hj hij heq
    have hi2 : i < (rankedOf pref assets).length := hplen ▸ hi
    have hj2 : j < (rankedOf pref assets).length := hplen ▸ hj
    rw [(optimize_get_facts pref budget assets i hi hi2).2.1,
      (optimize_get_facts pref budget assets j hj hj2).2.1] at heq
    rw [(optimize_get_facts pref budget assets i hi hi2).2.2,
      (optimize_get_facts pref budget assets j hj hj2).2.2]
    exact (hpwget i j hi2 hj2 hij).2 heq.le

/-- A sample asset within moderate risk tolerance. -/
def assetA : AssetInput :=
  ⟨60, 70, 50, 3 / 10, 1 / 2, 1 / 10, .buy, 1 / 2, 100⟩

/-- A sample asset with the same volatility and Sharpe as `assetA` but
different scores and signal. -/
def assetB : AssetInput :=
  ⟨10, 20, 30, 3 / 10, 1 / 2, 0, .hold, 1 / 2, 50⟩

/-- Witness for `c5_ranker` on a concrete two-asset universe. -/
theorem c5_ranker_witness :
    (optimizePortfolio "moderate" 500 [assetA, assetB]).length =
      min 10 ([assetA, assetB] : List AssetInput).length ∧
    ((optimizePortfolio "moderate" 500 [assetA, assetB]).map
      (·.allocationPct)).sum = 100 ∧
    (∀ k (hk : k < (optimizePortfolio "moderate" 500 [assetA, assetB]).length),
      ((optimizePortfolio "moderate" 500 [assetA, assetB]).get ⟨k, hk⟩).rank = k + 1) ∧
    (∀ i j (hi : i < (optimizePortfolio "moderate" 500 [assetA, assetB]).length)
      (hj : j < (optimizePortfolio "moderate" 500 [assetA, assetB]).length), i < j →
      ((optimizePortfolio "moderate" 500 [assetA, assetB]).get ⟨j, hj⟩).combined ≤
        ((optimizePortfolio "moderate" 500 [assetA, assetB]).get ⟨i, hi⟩).combined) ∧
    (∀ i j (hi : i < (optimizePortfolio "moderate" 500 [assetA, assetB]).length)
      (hj : j < (optimizePortfolio "moderate" 500 [assetA, assetB]).length), i < j →
      ((optimizePortfolio "moderate" 500 [assetA, assetB]).get ⟨i, hi⟩).combined =
        ((optimizePortfolio "moderate" 500 [assetA, assetB]).get ⟨j, hj⟩).combined →
      ((optimizePortfolio "moderate" 500 [assetA, assetB]).get ⟨i, hi⟩).idx <
        ((optimizePortfolio "moderate" 500 [assetA, assetB]).get ⟨j, hj⟩).idx) :=
  c5_ranker "moderate" 500 [assetA, assetB] (by simp) (by decide)

/-- C7: the risk category input to the combined score depends only on the
preference's tolerance thresholds and the asset's volatility and Sharpe: it
is exactly 100 within tolerance and exactly 30 otherwise, regardless of all
other inputs, and it enters the combined score with the preference's risk
weight. -/
theorem c7_risk_category_binary (pref : String) (a b : AssetInput)
    (hvol : a.volatility = b.volatility) (hsh : a.sharpe = b.sharpe) :
    riskScore pref a = riskScore pref b ∧
    ((a.volatility ≤ (riskThresholds pref).1 ∧
      (riskThresholds pref).2 ≤ a.sharpe) → riskScore pref a = 100) ∧
    (¬(a.volatility ≤ (riskThresholds pref).1 ∧
      (riskThresholds pref).2 ≤ a.sharpe) → riskScore pref a = 30) ∧
    combinedScore pref a =
      a.fScore * (weightsOf pref).1 + a.tScore * (weightsOf pref).2.1 +
        a.sScore * (weightsOf pref).2.2.1 +
        riskScore pref a * (weightsOf pref).2.2.2 := by
  refine ⟨?_, ?_, ?_, rfl⟩
  · unfold riskScore withinTolerance
    rw [hvol, hsh]
  · intro h
    unfold riskScore
    rw [if_pos]
    unfold withinTolerance
    simp [h.1, h.2]
  · intro h
    unfold riskScore
    rw [if_neg]
    unfold withinTolerance
    simpa using h

/-- Witness for `c7_risk_category_binary` on two assets sharing risk
metrics but nothing else. -/
theorem c7_risk_category_binary_witness :
    riskScore "moderate" assetA = riskScore "moderate" assetB ∧
    ((assetA.volatility ≤ (riskThresholds "moderate").1 ∧
      (riskThresholds "moderate").2 ≤ assetA.sharpe) →
      riskScore "moderate" assetA = 100) ∧
    (¬(assetA.volatility ≤ (riskThresholds "moderate").1 ∧
      (riskThresholds "moderate").2 ≤ assetA.sharpe) →
      riskScore "moderate" assetA = 30) ∧
    combinedScore "moderate" assetA =
      assetA.fScore * (weightsOf "moderate").1 +
        assetA.tScore * (weightsOf "moderate").2.1 +
        assetA.sScore * (weightsOf "moderate").2.2.1 +
        riskScore "moderate" assetA * (weightsOf "moderate").2.2.2 :=
  c7_risk_category_binary "moderate" assetA assetB rfl rfl

end TradingCore
